import Mathlib

/-!
Shallow embedding of the Smart-Sales-Analyzer pipeline (src/main.py).

The script resolves column names by fuzzy matching (`difflib.get_close_matches`
inside `guess_column_name`, lines 17-23), cleans the resolved columns
(lines 47-58), and computes aggregates (lines 71-119).  The definitions below
translate those parts of the source; machine floats are modelled by exact
rationals (the ratios and sums involved have small denominators, so every
comparison made by the program agrees with its exact-arithmetic value).
-/

namespace SSA

/- The rational operations of core Lean are irreducible by default; concrete
evaluation of the embedded program inside proofs needs them unfolded. -/
attribute [local semireducible] Rat.mul Rat.inv Rat.add Rat.sub

set_option maxRecDepth 100000

/-! ## Model of `difflib.SequenceMatcher` / `get_close_matches`

`guess_column_name` (src/main.py lines 17-23) calls
`get_close_matches(target.lower(), [col.lower() for col in columns], n=1, cutoff=0.6)`.
`get_close_matches` keeps the candidates whose Ratcliff-Obershelp ratio against
the target reaches the cutoff and returns the largest by the pair
`(ratio, candidate)` (via `heapq.nlargest`, which on ties keeps the earlier
element).  The strings involved are short, so no difflib junk heuristic fires
and the float comparisons agree with exact rational arithmetic. -/

/-- Length of the common prefix of two character lists. -/
def commonPrefixLen : List Char → List Char → Nat
  | x :: xs, y :: ys => if x = y then commonPrefixLen xs ys + 1 else 0
  | _, _ => 0

/-- `SequenceMatcher.find_longest_match` on whole sequences: the triple
`(i, j, k)` of the longest block with `a[i:i+k] = b[j:j+k]`, earliest in `a`
then earliest in `b` among the longest. -/
def findLongestMatch (a b : List Char) : Nat × Nat × Nat :=
  (List.range a.length).foldl
    (fun best i =>
      (List.range b.length).foldl
        (fun best j =>
          let k := commonPrefixLen (a.drop i) (b.drop j)
          if best.2.2 < k then (i, j, k) else best)
        best)
    (0, 0, 0)

/-- Total size of the matching blocks (`M` in the difflib ratio), computed by
the recursive longest-match decomposition.  The fuel is an upper bound on the
recursion depth; `matchTotal` is always called with fuel larger than the
combined length of the two lists, which the recursion strictly decreases. -/
def matchTotal : Nat → List Char → List Char → Nat
  | 0, _, _ => 0
  | fuel + 1, a, b =>
    let m := findLongestMatch a b
    if m.2.2 = 0 then 0
    else
      m.2.2 + matchTotal fuel (a.take m.1) (b.take m.2.1) +
        matchTotal fuel (a.drop (m.1 + m.2.2)) (b.drop (m.2.1 + m.2.2))

/-- `SequenceMatcher(None, a, b).ratio() = 2*M/T` (and `1.0` when both strings
are empty, per difflib's `_calculate_ratio`). -/
def ratio (a b : String) : ℚ :=
  let la := a.data.length
  let lb := b.data.length
  if la + lb = 0 then 1
  else (2 * matchTotal (la + lb + 1) a.data b.data : ℚ) / (la + lb)

/-- Python `str.lower` restricted to the characters that occur in headers
(ASCII): lower-case every character. -/
def lowerStr (s : String) : String := ⟨s.data.map Char.toLower⟩

/-- `difflib.get_close_matches(word, possibilities, n=1, cutoff)` followed by
taking the single best entry: among the possibilities whose ratio against
`word` reaches the cutoff, the maximum by the pair `(ratio, string)`, keeping
the earlier entry on full ties. -/
def closeMatches1 (word : String) (possibilities : List String) (cutoff : ℚ) :
    Option String :=
  (possibilities.filter (fun x => cutoff ≤ ratio x word)).foldl
    (fun best x =>
      match best with
      | none => some x
      | some b =>
        if ratio b word < ratio x word ∨ (ratio x word = ratio b word ∧ b < x) then
          some x
        else some b)
    none

/-- `guess_column_name(columns, target)` from src/main.py lines 17-23: fuzzy
match `target.lower()` against the lowered columns with cutoff 0.6, then
return the first original column whose lowered form equals the best match. -/
def guess_column_name (columns : List String) (target : String) : Option String :=
  match closeMatches1 (lowerStr target) (columns.map lowerStr) (3 / 5) with
  | some m => columns.find? (fun col => lowerStr col = m)
  | none => none

/-! ## Cells and tables

The uploaded file reaches the script through `pd.read_csv` / `pd.read_excel`
(lines 28-31), which turn empty cells into NA; all other cells of the columns
the script touches are text until the script itself coerces them
(`pd.to_numeric` line 56, `pd.to_datetime` line 53).  A cell is therefore NA,
text, a number (produced by `to_numeric`), or a timestamp (produced by
`to_datetime`, represented by its epoch-day count). -/

inductive CellV where
  | na : CellV
  | str : String → CellV
  | num : ℚ → CellV
  | date : ℤ → CellV
  deriving DecidableEq, Repr

/-- A dataframe: named columns over rows of cells. -/
structure Table where
  headers : List String
  rows : List (List CellV)
  deriving DecidableEq, Repr

/-- Ingestion of one raw text cell (`pd.read_csv` default NA handling: an
empty field becomes NA, everything else stays text). -/
def ingest (s : String) : CellV := if s = "" then CellV.na else CellV.str s

/-- The table obtained by reading a raw header row and raw text rows. -/
def mkTable (hs : List String) (rss : List (List String)) : Table :=
  ⟨hs, rss.map (List.map ingest)⟩

/-- Index of a column label in a header list (first occurrence). -/
def colIdx (hs : List String) (c : String) : Option Nat :=
  match hs with
  | [] => none
  | h :: t => if h = c then some 0 else (colIdx t c).map (· + 1)

/-- The cell of `row` under label `c` (NA when the label is absent). -/
def cellAt (hs : List String) (row : List CellV) (c : String) : CellV :=
  match colIdx hs c with
  | some i => row.getD i CellV.na
  | none => CellV.na

/-- `df[cols]`: projection onto a list of column labels (line 48). -/
def projectCols (df : Table) (cols : List String) : Table :=
  ⟨cols, df.rows.map (fun r => cols.map (cellAt df.headers r))⟩

/-- `df[c]`: the values of one column. -/
def getColVals (df : Table) (c : String) : List CellV :=
  df.rows.map (fun r => cellAt df.headers r c)

/-- `t[name] = vals`: column assignment; replaces the column when the label
exists, otherwise appends a new column (lines 51, 53, 111). -/
def setCol (t : Table) (name : String) (vals : List CellV) : Table :=
  match colIdx t.headers name with
  | some i => ⟨t.headers, t.rows.zipWith (fun r v => r.set i v) vals⟩
  | none => ⟨t.headers ++ [name], t.rows.zipWith (fun r v => r ++ [v]) vals⟩

/-- `t.dropna(subset=cols)` (lines 55, 57): keep the rows whose cells under
every label in `cols` are non-NA. -/
def dropnaSubset (t : Table) (cols : List String) : Table :=
  ⟨t.headers, t.rows.filter (fun r => cols.all (fun c => cellAt t.headers r c ≠ CellV.na))⟩

/-- `t[c] = f(t[c])`: transform one column in place (line 56). -/
def mapCol (t : Table) (c : String) (f : CellV → CellV) : Table :=
  match colIdx t.headers c with
  | some i => ⟨t.headers, t.rows.map (fun r => r.set i (f (r.getD i CellV.na)))⟩
  | none => t

/-! ## Numeric and date coercion -/

/-- Numeric value of a digit run (0 for the empty run). -/
def natOfDigits (cs : List Char) : ℕ :=
  cs.foldl (fun a c => 10 * a + (c.toNat - '0'.toNat)) 0

/-- An unsigned decimal mantissa: a digit run with at most one decimal point
and at least one digit ("12", "7.5", "1.", ".5"; not "", ".", "1,0"). -/
def parseMantissa (ds : List Char) : Option ℚ :=
  let intPart := ds.takeWhile (· ≠ '.')
  match ds.dropWhile (· ≠ '.') with
  | [] =>
    if intPart ≠ [] ∧ intPart.all Char.isDigit then
      some (natOfDigits intPart)
    else none
  | '.' :: frac =>
    if (intPart ≠ [] ∨ frac ≠ []) ∧ intPart.all Char.isDigit ∧
        frac.all Char.isDigit then
      some ((natOfDigits intPart : ℚ) + (natOfDigits frac : ℚ) / (10 ^ frac.length))
    else none
  | _ => none

/-- A scientific-notation exponent (the part after `e`/`E`): an optional sign
and a non-empty digit run, giving the scaling factor `10^±k`. -/
def parseExpScale (es : List Char) : Option ℚ :=
  let signAndDigits : Bool × List Char :=
    match es with
    | '-' :: rest => (true, rest)
    | '+' :: rest => (false, rest)
    | _ => (false, es)
  let ds := signAndDigits.2
  if ds ≠ [] ∧ ds.all Char.isDigit then
    some (if signAndDigits.1 then 1 / 10 ^ natOfDigits ds else (10 : ℚ) ^ natOfDigits ds)
  else none

/-- `pd.to_numeric(·, errors="coerce")` on one text value, modelled for the
finite numeric representations it parses: optional surrounding whitespace, an
optional sign, a decimal mantissa, and an optional `e`/`E` exponent ("12",
"-7.5", "1e3", "1.5E-2").  Nothing is stripped beyond whitespace; any other
character (a currency symbol, a thousands separator, ...) makes the coercion
fail.  The strings pandas maps to IEEE non-finite floats are outside the
rational model: a NaN-string behaves like a failed coercion in the pipeline
(the row is dropped either way), and infinity-strings (`isInfStr`) are
excluded from the claims about coercion. -/
def parseNumeric (s : String) : Option ℚ :=
  let cs := ((s.data.dropWhile Char.isWhitespace).reverse.dropWhile
    Char.isWhitespace).reverse
  let signAndDigits : ℚ × List Char :=
    match cs with
    | '-' :: rest => (-1, rest)
    | '+' :: rest => (1, rest)
    | _ => (1, cs)
  let ds := signAndDigits.2
  let mant := ds.takeWhile (fun c => c ≠ 'e' ∧ c ≠ 'E')
  match parseMantissa mant, ds.dropWhile (fun c => c ≠ 'e' ∧ c ≠ 'E') with
  | some m, [] => some (signAndDigits.1 * m)
  | some m, _ :: es =>
    match parseExpScale es with
    | some scale => some (signAndDigits.1 * m * scale)
    | none => none
  | none, _ => none

/-- The strings pandas coerces to IEEE infinities (an optional sign and a
case-insensitive "inf" or "infinity", after whitespace).  Infinite floats have
no counterpart in the rational model, so the claims about numeric coercion
exclude these cells. -/
def isInfStr (s : String) : Bool :=
  let cs := ((s.data.dropWhile Char.isWhitespace).reverse.dropWhile
    Char.isWhitespace).reverse
  let ds := match cs with
    | '-' :: rest => rest
    | '+' :: rest => rest
    | _ => cs
  let low := ds.map Char.toLower
  low == "inf".data || low == "infinity".data

/-- `pd.to_numeric(·, errors="coerce")` on one cell. -/
def toNumericCell (v : CellV) : CellV :=
  match v with
  | CellV.str s =>
    match parseNumeric s with
    | some q => CellV.num q
    | none => CellV.na
  | CellV.num q => CellV.num q
  | _ => CellV.na

/-- Split a character list on a separator character. -/
def splitOnChar (sep : Char) : List Char → List (List Char)
  | [] => [[]]
  | c :: cs =>
    match splitOnChar sep cs with
    | g :: gs => if c = sep then [] :: g :: gs else (c :: g) :: gs
    | [] => if c = sep then [[], []] else [[c]]

/-- Length of a month, Gregorian calendar. -/
def daysInMonth (y m : ℕ) : ℕ :=
  if m = 2 then
    if y % 4 = 0 ∧ (y % 100 ≠ 0 ∨ y % 400 = 0) then 29 else 28
  else if m = 4 ∨ m = 6 ∨ m = 9 ∨ m = 11 then 30
  else 31

/-- Days since 1970-01-01 of a civil date (standard Gregorian conversion;
all intermediate operands are non-negative for the year range accepted by
`parseDate`). -/
def daysFromCivil (y m d : ℕ) : ℤ :=
  let y' : ℤ := (y : ℤ) - (if m ≤ 2 then 1 else 0)
  let era : ℤ := y' / 400
  let yoe : ℤ := y' - era * 400
  let mp : ℤ := ((m : ℤ) + 9) % 12
  let doy : ℤ := (153 * mp + 2) / 5 + (d : ℤ) - 1
  let doe : ℤ := yoe * 365 + yoe / 4 - yoe / 100 + doy
  era * 146097 + doe - 719468

/-- `pd.to_datetime(·, errors="coerce")` on one text value, modelled for ISO
`YYYY-MM-DD` dates inside the nanosecond-timestamp year range pandas accepts;
anything else coerces to NaT. -/
def parseDate (s : String) : Option ℤ :=
  match splitOnChar '-' s.data with
  | [ys, ms, ds] =>
    if ys ≠ [] ∧ ms ≠ [] ∧ ds ≠ [] ∧ ys.all Char.isDigit ∧ ms.all Char.isDigit ∧
        ds.all Char.isDigit then
      let y := natOfDigits ys
      let m := natOfDigits ms
      let d := natOfDigits ds
      if 1678 ≤ y ∧ y ≤ 2261 ∧ 1 ≤ m ∧ m ≤ 12 ∧ 1 ≤ d ∧ d ≤ daysInMonth y m then
        some (daysFromCivil y m d)
      else none
    else none
  | _ => none

/-- `pd.to_datetime(·, errors="coerce")` on one cell. -/
def toDatetimeCell (v : CellV) : CellV :=
  match v with
  | CellV.str s =>
    match parseDate s with
    | some d => CellV.date d
    | none => CellV.na
  | CellV.date d => CellV.date d
  | _ => CellV.na

/-- The seven weekday names, in the fixed order used at line 113. -/
def weekdayNames : List String :=
  ["Monday", "Tuesday", "Wednesday", "Thursday", "Friday", "Saturday", "Sunday"]

/-- `Series.dt.day_name()` for one timestamp: 1970-01-01 (epoch day 0) was a
Thursday, so epoch day `d` has Monday-based weekday index `(d + 3) % 7`. -/
def dayName (d : ℤ) : String :=
  weekdayNames.getD ((d + 3) % 7).toNat ""

/-! ## Cleaning (src/main.py lines 47-58) -/

/-- Positional rename at line 58:
`df_clean.columns = ['Sales', 'Category'] + [c for c in ['Payment', 'Date'] if c in df_clean.columns]`. -/
def renameClean (t : Table) : Table :=
  ⟨["Sales", "Category"] ++ (["Payment", "Date"].filter (fun c => c ∈ t.headers)),
    t.rows⟩

/-- Lines 48-58: project the resolved sales/category columns (with a copy),
attach the optional payment column verbatim and the parsed date column, drop
rows with NA sales or category, coerce sales to numbers, drop rows whose
coercion failed, and rename the columns canonically. -/
def cleanPipe (df : Table) (sc cc : String) (pc dc : Option String) : Table :=
  let t1 := projectCols df [sc, cc]
  let t2 := match pc with
    | some p => setCol t1 "Payment" (getColVals df p)
    | none => t1
  let t3 := match dc with
    | some d => setCol t2 "Date" ((getColVals df d).map toDatetimeCell)
    | none => t2
  let t4 := dropnaSubset t3 [sc, cc]
  let t5 := mapCol t4 sc toNumericCell
  let t6 := dropnaSubset t5 [sc]
  renameClean t6

/-- One cleaned row: a numeric sales value, a category label, and the optional
payment and parsed-date values (the spec's `CanonicalRecord`). -/
structure CRec where
  sales : ℚ
  category : String
  payment : Option String
  date : Option ℤ
  deriving DecidableEq, Repr

/-- Read the canonical records out of a cleaned table (columns as named by
`renameClean`). -/
def recordsOf (t : Table) : List CRec :=
  t.rows.filterMap (fun r =>
    match cellAt t.headers r "Sales", cellAt t.headers r "Category" with
    | CellV.num q, CellV.str c =>
      some ⟨q, c,
        (match cellAt t.headers r "Payment" with
          | CellV.str s => some s
          | _ => none),
        (match cellAt t.headers r "Date" with
          | CellV.date d => some d
          | _ => none)⟩
    | _, _ => none)

/-- Row-level summary of lines 48-58: a row of the uploaded table survives
cleaning exactly when its category cell is non-NA and its sales cell is non-NA
and numerically coercible; the payment cell is copied verbatim and the date
cell is date-parsed, failure giving an absent date. -/
def rowClean (hs : List String) (sc cc : String) (pc dc : Option String)
    (row : List CellV) : Option CRec :=
  match cellAt hs row sc, cellAt hs row cc with
  | CellV.na, _ => none
  | CellV.str s, CellV.str c =>
    match parseNumeric s with
    | some q =>
      some ⟨q, c,
        (match pc.map (fun p => cellAt hs row p) with
          | some (CellV.str v) => some v
          | _ => none),
        (match dc.map (fun dcol => toDatetimeCell (cellAt hs row dcol)) with
          | some (CellV.date d) => some d
          | _ => none)⟩
    | none => none
  | _, _ => none

/-! ## Python string order and sorting (groupby key order) -/

/-- Python string comparison on character lists: lexicographic by code point. -/
def charListLe : List Char → List Char → Bool
  | [], _ => true
  | _ :: _, [] => false
  | x :: xs, y :: ys =>
    if x.toNat < y.toNat then true
    else if y.toNat < x.toNat then false
    else charListLe xs ys

/-- Python `a <= b` on strings: lexicographic by code point. -/
def pyLe (a b : String) : Bool := charListLe a.data b.data

theorem charListLe_refl (l : List Char) : charListLe l l = true := by
  induction l with
  | nil => rfl
  | cons x xs ih => simp [charListLe, ih]

theorem charListLe_total (a b : List Char) :
    charListLe a b = true ∨ charListLe b a = true := by
  induction a generalizing b with
  | nil => exact Or.inl rfl
  | cons x xs ih =>
    cases b with
    | nil => exact Or.inr rfl
    | cons y ys =>
      by_cases h1 : x.toNat < y.toNat
      · exact Or.inl (by simp [charListLe, h1])
      · by_cases h2 : y.toNat < x.toNat
        · exact Or.inr (by simp [charListLe, h2])
        · rcases ih ys with h | h
          · exact Or.inl (by simp [charListLe, h1, h2, h])
          · exact Or.inr (by simp [charListLe, h1, h2, h])

theorem charListLe_trans {a b c : List Char} (hab : charListLe a b = true)
    (hbc : charListLe b c = true) : charListLe a c = true := by
  induction a generalizing b c with
  | nil => rfl
  | cons x xs ih =>
    cases b with
    | nil => simp [charListLe] at hab
    | cons y ys =>
      cases c with
      | nil => simp [charListLe] at hbc
      | cons z zs =>
        simp only [charListLe] at hab hbc ⊢
        by_cases hxy : x.toNat < y.toNat <;> by_cases hyz : y.toNat < z.toNat <;>
          by_cases hyx : y.toNat < x.toNat <;> by_cases hzy : z.toNat < y.toNat <;>
            simp [hxy, hyz, hyx, hzy] at hab hbc ⊢ <;>
        first
          | omega
          | (exact ih hab hbc)
          | (exact Or.inr ⟨by omega, ih hab hbc⟩)


theorem pyLe_refl (a : String) : pyLe a a = true := charListLe_refl a.data

theorem pyLe_total (a b : String) : pyLe a b = true ∨ pyLe b a = true :=
  charListLe_total a.data b.data

theorem pyLe_trans {a b c : String} (hab : pyLe a b = true) (hbc : pyLe b c = true) :
    pyLe a c = true := charListLe_trans hab hbc

/-- Insert a string into a (sorted) list, before the first entry it is ≤ to. -/
def insertSorted (a : String) : List String → List String
  | [] => [a]
  | b :: t => if pyLe a b then a :: b :: t else b :: insertSorted a t

/-- Sort a list of strings by Python string order (the key sorting done by
`groupby(sort=True)`). -/
def sortStrings : List String → List String
  | [] => []
  | a :: t => insertSorted a (sortStrings t)

theorem perm_insertSorted (a : String) (l : List String) :
    List.Perm (insertSorted a l) (a :: l) := by
  induction l with
  | nil => rfl
  | cons b t ih =>
    by_cases h : pyLe a b
    · simp [insertSorted, h]
    · simp only [insertSorted, if_neg h]
      exact (ih.cons b).trans (List.Perm.swap a b t)

theorem perm_sortStrings (l : List String) : List.Perm (sortStrings l) l := by
  induction l with
  | nil => rfl
  | cons a t ih =>
    exact (perm_insertSorted a (sortStrings t)).trans (ih.cons a)

theorem pairwise_insertSorted (a : String) (l : List String)
    (h : l.Pairwise (fun x y => pyLe x y = true)) :
    (insertSorted a l).Pairwise (fun x y => pyLe x y = true) := by
  induction l with
  | nil => simp [insertSorted]
  | cons b t ih =>
    rcases List.pairwise_cons.mp h with ⟨hb, ht⟩
    by_cases hab : pyLe a b
    · simp only [insertSorted, if_pos hab]
      refine List.pairwise_cons.mpr ⟨?_, h⟩
      intro x hx
      rcases List.mem_cons.mp hx with rfl | hx'
      · exact hab
      · exact pyLe_trans hab (hb x hx')
    · simp only [insertSorted, if_neg hab]
      refine List.pairwise_cons.mpr ⟨?_, ih ht⟩
      intro x hx
      rcases List.mem_cons.mp ((perm_insertSorted a t).mem_iff.mp hx) with rfl | h2
      · rcases pyLe_total x b with h3 | h3
        · exact absurd h3 hab
        · exact h3
      · exact hb x h2

theorem sorted_sortStrings (l : List String) :
    (sortStrings l).Pairwise (fun x y => pyLe x y = true) := by
  induction l with
  | nil => exact List.Pairwise.nil
  | cons a t ih => exact pairwise_insertSorted a (sortStrings t) ih

/-! ## Aggregates (src/main.py lines 71-119) -/

/-- Line 71: `df_clean["Sales"].sum()`. -/
def totalSales (recs : List CRec) : ℚ :=
  (recs.map CRec.sales).sum

/-- The group keys produced by `groupby("Category")`: the distinct category
labels, in sorted order (pandas sorts group keys by default). -/
def catsOf (recs : List CRec) : List String :=
  sortStrings (recs.map CRec.category).dedup

/-- `groupby("Category")["Sales"].sum()` for one key (line 76/86). -/
def sumByCat (recs : List CRec) (c : String) : ℚ :=
  ((recs.filter (fun r => r.category = c)).map CRec.sales).sum

/-- `Series.idxmax`: the first entry holding the maximum value, as the series
is traversed in key order. -/
def idxmax : List (String × ℚ) → Option (String × ℚ)
  | [] => none
  | p :: rest =>
    match idxmax rest with
    | none => some p
    | some q => if p.2 < q.2 then some q else some p

/-- Line 76: `df_clean.groupby("Category")["Sales"].sum().idxmax()`. -/
def topCategory (recs : List CRec) : Option String :=
  (idxmax ((catsOf recs).map (fun c => (c, sumByCat recs c)))).map Prod.fst

/-- Line 102: `df_clean["Payment"].value_counts()`: occurrence counts of the
distinct non-NA payment values (`value_counts` drops NA by default; the
frequency-descending display order is not modelled, the key/count pairs are). -/
def paymentCounts (recs : List CRec) : List (String × ℕ) :=
  ((recs.filterMap CRec.payment).dedup).map
    (fun v => (v, (recs.filterMap CRec.payment).count v))

/-- Lines 111-114: `df_clean["Date"].dt.day_name().value_counts().reindex(
[Monday..Sunday], fill_value=0)`: per-weekday transaction counts over the rows
with a parsed date, across all seven weekday buckets in fixed order. -/
def weekdayCounts (recs : List CRec) : List (String × ℕ) :=
  weekdayNames.map (fun n =>
    (n, ((recs.filterMap CRec.date).filter (fun d => dayName d = n)).length))

/-! ## Top level (src/main.py lines 37-67) -/

/-- Line 43: the error shown when Sales or Category cannot be detected. -/
def unresolvedMsg : String :=
  "❌ Could not detect 'Sales' or 'Category' columns. Please check your file."

/-- Line 66: the error shown when no rows survive cleaning. -/
def emptyMsg : String :=
  "❌ No valid data left after cleaning. Please check your file."

/-- The values the script derives and displays for one upload. -/
structure Output where
  records : List CRec
  dropped : ℕ
  total : ℚ
  top : Option String
  payment : Option (List (String × ℕ))
  weekday : Option (List (String × ℕ))
  deriving Repr

/-- Lines 37-119: resolve the four columns, stop with `unresolvedMsg` when
sales or category is undetected, clean, stop with `emptyMsg` when nothing
survives, and compute the aggregates (payment and weekday ones only when the
respective column was resolved). -/
def analyze (df : Table) : Except String Output :=
  let salesCol := guess_column_name df.headers "sales"
  let categoryCol := guess_column_name df.headers "category"
  let paymentCol := guess_column_name df.headers "payment"
  let dateCol := guess_column_name df.headers "date"
  match salesCol, categoryCol with
  | some sc, some cc =>
    let recs := recordsOf (cleanPipe df sc cc paymentCol dateCol)
    if recs.isEmpty then Except.error emptyMsg
    else
      Except.ok
        { records := recs
          dropped := df.rows.length - recs.length
          total := totalSales recs
          top := topCategory recs
          payment := if paymentCol.isSome then some (paymentCounts recs) else none
          weekday := if dateCol.isSome then some (weekdayCounts recs) else none }
  | _, _ => Except.error unresolvedMsg

/-! ## Mutation model for the frame property

The script holds two dataframe variables, `df` and `df_clean`.  `df_clean` is
born at line 48 from `df[[sales_col, category_col]].copy()`; the `.copy()`
makes it storage-disjoint from `df`, so later column writes to `df_clean`
(lines 51, 53, 56, 111 and the reassignments at 55, 57, 58) would reach `df`
only if the two still aliased.  The state below carries both variables plus
that aliasing bit; a write to `df_clean` is replayed onto `df` exactly when
they alias. -/

structure PipeState where
  df : Table
  dfClean : Table
  aliased : Bool

/-- A write to the `df_clean` variable, replayed onto `df` when aliased. -/
def writeClean (f : Table → Table) (s : PipeState) : PipeState :=
  { s with dfClean := f s.dfClean, df := if s.aliased then f s.df else s.df }

/-- Lines 48-58 plus the weekday-column write at line 111, as state steps. -/
def runFull (df0 : Table) (sc cc : String) (pc dc : Option String) : PipeState :=
  let s0 : PipeState := ⟨df0, projectCols df0 [sc, cc], false⟩
  let s1 := match pc with
    | some p => writeClean (fun t => setCol t "Payment" (getColVals df0 p)) s0
    | none => s0
  let s2 := match dc with
    | some d =>
      writeClean (fun t => setCol t "Date" ((getColVals df0 d).map toDatetimeCell)) s1
    | none => s1
  let s3 := writeClean (fun t => dropnaSubset t [sc, cc]) s2
  let s4 := writeClean (fun t => mapCol t sc toNumericCell) s3
  let s5 := writeClean (fun t => dropnaSubset t [sc]) s4
  let s6 := writeClean renameClean s5
  writeClean (fun t => setCol t "Weekday" ((getColVals t "Date").map
    (fun v => match v with
      | CellV.date d => CellV.str (dayName d)
      | _ => CellV.na))) s6


/-! ## Helper lemmas -/

theorem colIdx_head (c : String) (t : List String) : colIdx (c :: t) c = some 0 := by
  simp [colIdx]

theorem colIdx_cons_ne {h c : String} (hne : h ≠ c) (t : List String) :
    colIdx (h :: t) c = (colIdx t c).map (· + 1) := by
  simp [colIdx, hne]

theorem zipWith_map_same {α β γ δ : Type} (l : List α) (f : α → β) (g : α → γ)
    (h : β → γ → δ) :
    List.zipWith h (l.map f) (l.map g) = l.map (fun x => h (f x) (g x)) := by
  induction l with
  | nil => rfl
  | cons a t ih => simp [ih]

theorem filterMap_chain2 {α β γ : Type} (l : List α) (f : α → β) (p : β → Bool)
    (g : β → β) (q : β → Bool) (e : β → Option γ) :
    ((((l.map f).filter p).map g).filter q).filterMap e =
      l.filterMap (fun x =>
        if p (f x) then (if q (g (f x)) then e (g (f x)) else none) else none) := by
  induction l with
  | nil => rfl
  | cons a t ih =>
    by_cases hp : p (f a)
    · by_cases hq : q (g (f a)) <;>
        simp [hp, hq, ih, List.filterMap_cons]
    · simp [hp, ih]

theorem ingest_cases (hs : List String) (row : List String) (c : String) :
    cellAt hs (row.map ingest) c = CellV.na ∨
      ∃ s, s ≠ "" ∧ cellAt hs (row.map ingest) c = CellV.str s := by
  unfold cellAt
  cases colIdx hs c with
  | none => exact Or.inl rfl
  | some i =>
    simp only [List.getD_eq_getElem?_getD, List.getElem?_map]
    cases hr : row[i]? with
    | none => exact Or.inl rfl
    | some s =>
      by_cases hse : s = ""
      · simp [ingest, hse]
      · exact Or.inr ⟨s, hse, by simp [ingest, hse]⟩

theorem cellAt_cons_self (hs : List String) (c : String) (x : CellV) (r : List CellV) :
    cellAt (c :: hs) (x :: r) c = x := by
  simp [cellAt, colIdx_head]

theorem cellAt_cons_ne {h c : String} (hne : h ≠ c) (hs : List String) (x : CellV)
    (r : List CellV) : cellAt (h :: hs) (x :: r) c = cellAt hs r c := by
  unfold cellAt
  rw [colIdx_cons_ne hne]
  cases colIdx hs c <;> simp

theorem cellAt_nil_hs (r : List CellV) (c : String) : cellAt [] r c = CellV.na := rfl

theorem records_clean_nn (hs : List String) (rss : List (List String)) (sc cc : String)
    (h1 : sc ≠ cc) (h2 : sc ≠ "Payment") (h3 : sc ≠ "Date")
    (h4 : cc ≠ "Payment") (h5 : cc ≠ "Date") :
    recordsOf (cleanPipe (mkTable hs rss) sc cc none none) =
      rss.filterMap (fun row => rowClean hs sc cc none none (row.map ingest)) := by
  simp only [cleanPipe, mkTable, projectCols, dropnaSubset, renameClean, recordsOf,
    mapCol, colIdx, if_pos, if_neg h1, Option.map_some', Option.map_none',
    List.map_cons, List.map_nil, List.map_map, List.all_cons, List.all_nil,
    cellAt_cons_self, cellAt_cons_ne h1, cellAt_nil_hs, reduceIte,
    List.filter_cons, List.filter_nil, List.mem_cons, List.not_mem_nil,
    Ne.symm h2, Ne.symm h3, Ne.symm h4, Ne.symm h5]
  rw [filterMap_chain2]
  congr 1
  funext row
  rcases ingest_cases hs row sc with hx | ⟨s, hs0, hx⟩ <;>
    rcases ingest_cases hs row cc with hy | ⟨c0, hc0, hy⟩ <;>
      simp only [Function.comp, hx, hy, rowClean, cellAt_cons_self, cellAt_cons_ne,
        h1, ne_eq, List.set_cons_zero, Bool.and_true, decide_eq_true_eq] <;>
    try simp [cellAt_cons_self, cellAt_cons_ne, cellAt_nil_hs, h1]
  cases hq : parseNumeric s <;>
    simp [toNumericCell, hq, cellAt_cons_self, cellAt_cons_ne, cellAt_nil_hs]

theorem records_clean_sp_sd (hs : List String) (rss : List (List String)) (sc cc p d : String)
    (h1 : sc ≠ cc) (h2 : sc ≠ "Payment") (h3 : sc ≠ "Date")
    (h4 : cc ≠ "Payment") (h5 : cc ≠ "Date") :
    recordsOf (cleanPipe (mkTable hs rss) sc cc (some p) (some d)) =
      rss.filterMap (fun row => rowClean hs sc cc (some p) (some d) (row.map ingest)) := by
  simp only [cleanPipe, mkTable, projectCols, dropnaSubset, renameClean, recordsOf,
    mapCol, setCol, getColVals, colIdx, if_pos, if_neg h1, Option.map_some', Option.map_none',
    List.map_cons, List.map_nil, List.map_map, List.all_cons, List.all_nil,
    cellAt_cons_self, cellAt_cons_ne h1, cellAt_nil_hs, reduceIte,
    List.filter_cons, List.filter_nil, List.mem_cons, List.not_mem_nil,
    Ne.symm h2, Ne.symm h3, Ne.symm h4, Ne.symm h5, h2, h3, h4, h5,
    zipWith_map_same, List.cons_append, List.nil_append, String.reduceEq]
  rw [filterMap_chain2]
  congr 1
  funext row
  rcases ingest_cases hs row sc with hx | ⟨s, hs0, hx⟩ <;>
    rcases ingest_cases hs row cc with hy | ⟨c0, hc0, hy⟩ <;>
      simp only [Function.comp, hx, hy, rowClean, cellAt_cons_self, cellAt_cons_ne,
        h1, ne_eq, List.set_cons_zero, Bool.and_true, decide_eq_true_eq] <;>
    try simp [cellAt_cons_self, cellAt_cons_ne, cellAt_nil_hs, h1]
  cases hq : parseNumeric s <;>
    simp [toNumericCell, hq, cellAt_cons_self, cellAt_cons_ne, cellAt_nil_hs]
  constructor
  · cases cellAt hs (List.map ingest row) p <;> rfl
  · cases toDatetimeCell (cellAt hs (List.map ingest row) d) <;> rfl

theorem records_clean_sp_nd (hs : List String) (rss : List (List String)) (sc cc p : String)
    (h1 : sc ≠ cc) (h2 : sc ≠ "Payment") (h3 : sc ≠ "Date")
    (h4 : cc ≠ "Payment") (h5 : cc ≠ "Date") :
    recordsOf (cleanPipe (mkTable hs rss) sc cc (some p) none) =
      rss.filterMap (fun row => rowClean hs sc cc (some p) none (row.map ingest)) := by
  simp only [cleanPipe, mkTable, projectCols, dropnaSubset, renameClean, recordsOf,
    mapCol, setCol, getColVals, colIdx, if_pos, if_neg h1, Option.map_some', Option.map_none',
    List.map_cons, List.map_nil, List.map_map, List.all_cons, List.all_nil,
    cellAt_cons_self, cellAt_cons_ne h1, cellAt_nil_hs, reduceIte,
    List.filter_cons, List.filter_nil, List.mem_cons, List.not_mem_nil,
    Ne.symm h2, Ne.symm h3, Ne.symm h4, Ne.symm h5, h2, h3, h4, h5,
    zipWith_map_same, List.cons_append, List.nil_append, String.reduceEq]
  rw [filterMap_chain2]
  congr 1
  funext row
  rcases ingest_cases hs row sc with hx | ⟨s, hs0, hx⟩ <;>
    rcases ingest_cases hs row cc with hy | ⟨c0, hc0, hy⟩ <;>
      simp only [Function.comp, hx, hy, rowClean, cellAt_cons_self, cellAt_cons_ne,
        h1, ne_eq, List.set_cons_zero, Bool.and_true, decide_eq_true_eq] <;>
    try simp [cellAt_cons_self, cellAt_cons_ne, cellAt_nil_hs, h1]
  cases hq : parseNumeric s <;>
    simp [toNumericCell, hq, cellAt_cons_self, cellAt_cons_ne, cellAt_nil_hs]
  cases cellAt hs (List.map ingest row) p <;> rfl

theorem records_clean_np_sd (hs : List String) (rss : List (List String)) (sc cc d : String)
    (h1 : sc ≠ cc) (h2 : sc ≠ "Payment") (h3 : sc ≠ "Date")
    (h4 : cc ≠ "Payment") (h5 : cc ≠ "Date") :
    recordsOf (cleanPipe (mkTable hs rss) sc cc none (some d)) =
      rss.filterMap (fun row => rowClean hs sc cc none (some d) (row.map ingest)) := by
  simp only [cleanPipe, mkTable, projectCols, dropnaSubset, renameClean, recordsOf,
    mapCol, setCol, getColVals, colIdx, if_pos, if_neg h1, Option.map_some', Option.map_none',
    List.map_cons, List.map_nil, List.map_map, List.all_cons, List.all_nil,
    cellAt_cons_self, cellAt_cons_ne h1, cellAt_nil_hs, reduceIte,
    List.filter_cons, List.filter_nil, List.mem_cons, List.not_mem_nil,
    Ne.symm h2, Ne.symm h3, Ne.symm h4, Ne.symm h5, h2, h3, h4, h5,
    zipWith_map_same, List.cons_append, List.nil_append, String.reduceEq]
  rw [filterMap_chain2]
  congr 1
  funext row
  rcases ingest_cases hs row sc with hx | ⟨s, hs0, hx⟩ <;>
    rcases ingest_cases hs row cc with hy | ⟨c0, hc0, hy⟩ <;>
      simp only [Function.comp, hx, hy, rowClean, cellAt_cons_self, cellAt_cons_ne,
        h1, ne_eq, List.set_cons_zero, Bool.and_true, decide_eq_true_eq] <;>
    try simp [cellAt_cons_self, cellAt_cons_ne, cellAt_nil_hs, h1]
  cases hq : parseNumeric s <;>
    simp [toNumericCell, hq, cellAt_cons_self, cellAt_cons_ne, cellAt_nil_hs]
  cases toDatetimeCell (cellAt hs (List.map ingest row) d) <;> rfl

theorem records_cleanPipe (hs : List String) (rss : List (List String)) (sc cc : String)
    (pc dc : Option String)
    (h1 : sc ≠ cc) (h2 : sc ≠ "Payment") (h3 : sc ≠ "Date")
    (h4 : cc ≠ "Payment") (h5 : cc ≠ "Date") :
    recordsOf (cleanPipe (mkTable hs rss) sc cc pc dc) =
      rss.filterMap (fun row => rowClean hs sc cc pc dc (row.map ingest)) := by
  cases pc with
  | none =>
    cases dc with
    | none => exact records_clean_nn hs rss sc cc h1 h2 h3 h4 h5
    | some d => exact records_clean_np_sd hs rss sc cc d h1 h2 h3 h4 h5
  | some p =>
    cases dc with
    | none => exact records_clean_sp_nd hs rss sc cc p h1 h2 h3 h4 h5
    | some d => exact records_clean_sp_sd hs rss sc cc p d h1 h2 h3 h4 h5



/-! ## Aggregate and matcher lemmas -/

theorem sum_indicator_of_nodup {K : Type} [DecidableEq K] {M : Type} [AddCommMonoid M]
    (keys : List K) (hnd : keys.Nodup) (x : K) (hx : x ∈ keys) (a : M) :
    (keys.map (fun k => if x = k then a else 0)).sum = a := by
  induction keys with
  | nil => cases hx
  | cons k t ih =>
    rcases List.mem_cons.mp hx with rfl | hxt
    · have hnot : x ∉ t := (List.nodup_cons.mp hnd).1
      have : (t.map (fun k => if x = k then a else 0)).sum = 0 := by
        apply List.sum_eq_zero
        intro y hy
        rcases List.mem_map.mp hy with ⟨k', hk', rfl⟩
        have : x ≠ k' := fun h => hnot (h ▸ hk')
        simp [this]
      simp [this]
    · have hne : k ≠ x := fun h => (List.nodup_cons.mp hnd).1 (h ▸ hxt)
      simp [Ne.symm hne, ih (List.nodup_cons.mp hnd).2 hxt]

/-- Summing a bucket decomposition over a duplicate-free complete key list
gives the total sum. -/
theorem sum_buckets {α K M : Type} [DecidableEq K] [AddCommMonoid M]
    (keys : List K) (hnd : keys.Nodup) (l : List α) (f : α → K) (g : α → M)
    (hmem : ∀ a ∈ l, f a ∈ keys) :
    (keys.map (fun k => ((l.filter (fun a => f a = k)).map g).sum)).sum
      = (l.map g).sum := by
  induction l with
  | nil => simp
  | cons a t ih =>
    have ht : ∀ x ∈ t, f x ∈ keys := fun x hx => hmem x (List.mem_cons_of_mem a hx)
    have hsplit : ∀ k : K,
        ((((a :: t).filter (fun x => f x = k)).map g).sum)
          = (if f a = k then g a else 0) + ((t.filter (fun x => f x = k)).map g).sum := by
      intro k
      by_cases h : f a = k <;> simp [List.filter_cons, h]
    calc (keys.map (fun k => (((a :: t).filter (fun x => f x = k)).map g).sum)).sum
        = (keys.map (fun k =>
            (if f a = k then g a else 0) + ((t.filter (fun x => f x = k)).map g).sum)).sum := by
          simp only [hsplit]
      _ = (keys.map (fun k => if f a = k then g a else 0)).sum +
            (keys.map (fun k => ((t.filter (fun x => f x = k)).map g).sum)).sum := by
          rw [← List.sum_map_add]
      _ = g a + (t.map g).sum := by
          rw [sum_indicator_of_nodup keys hnd (f a) (hmem a (List.mem_cons_self a t)) (g a),
            ih ht]
      _ = ((a :: t).map g).sum := by simp

theorem mem_catsOf {recs : List CRec} {r : CRec} (h : r ∈ recs) :
    r.category ∈ catsOf recs := by
  unfold catsOf
  rw [(perm_sortStrings (recs.map CRec.category).dedup).mem_iff]
  exact List.mem_dedup.mpr (List.mem_map_of_mem CRec.category h)

theorem nodup_catsOf (recs : List CRec) : (catsOf recs).Nodup := by
  unfold catsOf
  exact ((perm_sortStrings (recs.map CRec.category).dedup).symm).nodup
    (recs.map CRec.category).nodup_dedup

theorem sorted_catsOf (recs : List CRec) :
    (catsOf recs).Pairwise (fun x y => pyLe x y = true) :=
  sorted_sortStrings (recs.map CRec.category).dedup

theorem c7_test (recs : List CRec) :
    ((catsOf recs).map (fun c => sumByCat recs c)).sum = totalSales recs := by
  unfold sumByCat totalSales
  exact sum_buckets (catsOf recs) (nodup_catsOf recs) recs CRec.category CRec.sales
    (fun r hr => mem_catsOf hr)

theorem idxmax_eq_none {l : List (String × ℚ)} : idxmax l = none ↔ l = [] := by
  cases l with
  | nil => simp [idxmax]
  | cons p rest =>
    simp only [idxmax]
    cases idxmax rest with
    | none => simp
    | some q => by_cases h : p.2 < q.2 <;> simp [h]

theorem idxmax_mem_and_max {l : List (String × ℚ)} {p : String × ℚ}
    (h : idxmax l = some p) : p ∈ l ∧ ∀ q ∈ l, q.2 ≤ p.2 := by
  induction l generalizing p with
  | nil => cases h
  | cons a rest ih =>
    simp only [idxmax] at h
    cases hr : idxmax rest with
    | none =>
      rw [hr] at h
      cases h
      have : rest = [] := idxmax_eq_none.mp hr
      subst this
      exact ⟨List.mem_singleton_self a, by simp⟩
    | some q =>
      rw [hr] at h
      rcases ih hr with ⟨hqmem, hqmax⟩
      by_cases hlt : a.2 < q.2
      · simp only [if_pos hlt] at h
        cases h
        refine ⟨List.mem_cons_of_mem a hqmem, ?_⟩
        intro r hrm
        rcases List.mem_cons.mp hrm with rfl | hrm'
        · exact le_of_lt hlt
        · exact hqmax r hrm'
      · simp only [if_neg hlt] at h
        cases h
        refine ⟨List.mem_cons_self a rest, ?_⟩
        intro r hrm
        rcases List.mem_cons.mp hrm with rfl | hrm'
        · exact le_refl _
        · exact le_trans (hqmax r hrm') (not_lt.mp hlt)

theorem idxmax_first_of_sorted {l : List (String × ℚ)} {p : String × ℚ}
    (hsort : l.Pairwise (fun a b => pyLe a.1 b.1 = true)) (h : idxmax l = some p) :
    ∀ q ∈ l, q.2 = p.2 → pyLe p.1 q.1 = true := by
  induction l generalizing p with
  | nil => cases h
  | cons a rest ih =>
    have hall : ∀ b ∈ rest, pyLe a.1 b.1 = true := (List.pairwise_cons.mp hsort).1
    have hrest : rest.Pairwise (fun a b => pyLe a.1 b.1 = true) :=
      (List.pairwise_cons.mp hsort).2
    simp only [idxmax] at h
    cases hr : idxmax rest with
    | none =>
      rw [hr] at h
      cases h
      have : rest = [] := idxmax_eq_none.mp hr
      subst this
      intro q hq _
      rcases List.mem_singleton.mp hq with rfl
      exact pyLe_refl _
    | some q0 =>
      rw [hr] at h
      by_cases hlt : a.2 < q0.2
      · simp only [if_pos hlt] at h
        cases h
        intro q hq hq2
        rcases List.mem_cons.mp hq with rfl | hq'
        · exact absurd hq2 (ne_of_lt hlt)
        · exact ih hrest hr q hq' hq2
      · simp only [if_neg hlt] at h
        cases h
        intro q hq _
        rcases List.mem_cons.mp hq with rfl | hq'
        · exact pyLe_refl _
        · exact hall q hq'

theorem dayName_mem (d : ℤ) : dayName d ∈ weekdayNames := by
  unfold dayName
  have h1 : 0 ≤ (d + 3) % 7 := Int.emod_nonneg _ (by norm_num)
  have h2 : (d + 3) % 7 < 7 := Int.emod_lt_of_pos _ (by norm_num)
  have h4 : ((d + 3) % 7).toNat < weekdayNames.length := by
    simp only [weekdayNames, List.length_cons, List.length_nil]
    omega
  rw [List.getD_eq_getElem _ _ h4]
  exact List.getElem_mem _

theorem nodup_weekdayNames : weekdayNames.Nodup := by decide

theorem sum_map_one {α : Type} (l : List α) : (l.map (fun _ => (1 : ℕ))).sum = l.length := by
  induction l with
  | nil => rfl
  | cons a t ih => simp [ih, Nat.add_comm]

theorem length_filterMap_date (recs : List CRec) :
    (recs.filterMap CRec.date).length = recs.countP (fun r => r.date.isSome) := by
  induction recs with
  | nil => rfl
  | cons r t ih =>
    cases hr : r.date <;>
      simp [List.filterMap_cons, List.countP_cons, hr, ih]

theorem weekdayCounts_sum (recs : List CRec) :
    ((weekdayCounts recs).map Prod.snd).sum = recs.countP (fun r => r.date.isSome) := by
  unfold weekdayCounts
  rw [List.map_map]
  have : (Prod.snd ∘ fun n =>
      (n, ((recs.filterMap CRec.date).filter (fun d => dayName d = n)).length)) =
      (fun n => ((recs.filterMap CRec.date).filter (fun d => dayName d = n)).length) := rfl
  rw [this, ← length_filterMap_date]
  have hsum := sum_buckets weekdayNames nodup_weekdayNames (recs.filterMap CRec.date)
    dayName (fun _ => (1 : ℕ)) (fun d _ => dayName_mem d)
  calc (weekdayNames.map (fun n =>
        ((recs.filterMap CRec.date).filter (fun d => dayName d = n)).length)).sum
      = (weekdayNames.map (fun n =>
        (((recs.filterMap CRec.date).filter (fun d => dayName d = n)).map
          (fun _ => (1 : ℕ))).sum)).sum := by
        simp only [sum_map_one]
    _ = ((recs.filterMap CRec.date).map (fun _ => (1 : ℕ))).sum := hsum
    _ = (recs.filterMap CRec.date).length := sum_map_one _

theorem length_filterMap_pay (recs : List CRec) :
    (recs.filterMap CRec.payment).length = recs.countP (fun r => r.payment.isSome) := by
  induction recs with
  | nil => rfl
  | cons r t ih =>
    cases hr : r.payment <;>
      simp [List.filterMap_cons, List.countP_cons, hr, ih]

theorem count_eq_length_filter_eq (l : List String) (v : String) :
    l.count v = (l.filter (fun x => x = v)).length := by
  induction l with
  | nil => rfl
  | cons a t ih =>
    by_cases h : a = v <;> simp [List.count_cons, List.filter_cons, h, ih]

theorem paymentCounts_sum (recs : List CRec) :
    ((paymentCounts recs).map Prod.snd).sum = recs.countP (fun r => r.payment.isSome) := by
  unfold paymentCounts
  rw [List.map_map, ← length_filterMap_pay]
  set present := recs.filterMap CRec.payment with hp
  have hsum := sum_buckets present.dedup present.nodup_dedup present
    (fun v => v) (fun _ => (1 : ℕ)) (fun v hv => List.mem_dedup.mpr hv)
  calc (present.dedup.map
        (Prod.snd ∘ fun v => (v, present.count v))).sum
      = (present.dedup.map (fun v => present.count v)).sum := rfl
    _ = (present.dedup.map (fun v =>
          ((present.filter (fun x => x = v)).map (fun _ => (1 : ℕ))).sum)).sum := by
        simp only [sum_map_one, count_eq_length_filter_eq]
    _ = (present.map (fun _ => (1 : ℕ))).sum := hsum
    _ = present.length := sum_map_one _

theorem paymentCounts_keys (recs : List CRec) {p : String × ℕ}
    (hp : p ∈ paymentCounts recs) : ∃ r ∈ recs, r.payment = some p.1 := by
  unfold paymentCounts at hp
  rcases List.mem_map.mp hp with ⟨v, hv, rfl⟩
  rcases List.mem_filterMap.mp (List.mem_dedup.mp hv) with ⟨r, hr, hrp⟩
  exact ⟨r, hr, hrp⟩

theorem foldl_pick_some (word : String) (l : List String) (b : String) :
    ∃ c, l.foldl (fun best x =>
      match best with
      | none => some x
      | some b =>
        if ratio b word < ratio x word ∨ (ratio x word = ratio b word ∧ b < x) then
          some x
        else some b) (some b) = some c ∧ (c = b ∨ c ∈ l) := by
  induction l generalizing b with
  | nil => exact ⟨b, rfl, Or.inl rfl⟩
  | cons x t ih =>
    simp only [List.foldl_cons]
    by_cases h : ratio b word < ratio x word ∨ (ratio x word = ratio b word ∧ b < x)
    · simp only [if_pos h]
      rcases ih x with ⟨c, hc, hmem⟩
      refine ⟨c, hc, Or.inr ?_⟩
      rcases hmem with rfl | hmem'
      · exact List.mem_cons_self c t
      · exact List.mem_cons_of_mem x hmem'
    · simp only [if_neg h]
      rcases ih b with ⟨c, hc, hmem⟩
      refine ⟨c, hc, ?_⟩
      rcases hmem with rfl | hmem'
      · exact Or.inl rfl
      · exact Or.inr (List.mem_cons_of_mem x hmem')

theorem closeMatches1_none_iff (word : String) (poss : List String) (cutoff : ℚ) :
    closeMatches1 word poss cutoff = none ↔
      ∀ x ∈ poss, ¬ cutoff ≤ ratio x word := by
  unfold closeMatches1
  constructor
  · intro h x hx hcut
    cases hq : poss.filter (fun x => cutoff ≤ ratio x word) with
    | nil =>
      have : x ∈ poss.filter (fun x => cutoff ≤ ratio x word) :=
        List.mem_filter.mpr ⟨hx, by simpa using hcut⟩
      rw [hq] at this
      cases this
    | cons y t =>
      rw [hq] at h
      simp only [List.foldl_cons] at h
      rcases foldl_pick_some word t y with ⟨c, hc, _⟩
      rw [hc] at h
      cases h
  · intro h
    have : poss.filter (fun x => cutoff ≤ ratio x word) = [] := by
      apply List.filter_eq_nil_iff.mpr
      intro x hx
      simpa using h x hx
    rw [this]
    rfl

theorem closeMatches1_some (word : String) (poss : List String) (cutoff : ℚ)
    {m : String} (h : closeMatches1 word poss cutoff = some m) :
    m ∈ poss ∧ cutoff ≤ ratio m word := by
  unfold closeMatches1 at h
  cases hq : poss.filter (fun x => cutoff ≤ ratio x word) with
  | nil => rw [hq] at h; cases h
  | cons y t =>
    rw [hq] at h
    simp only [List.foldl_cons] at h
    rcases foldl_pick_some word t y with ⟨c, hc, hmem⟩
    rw [hc] at h
    cases h
    have hcq : m ∈ poss.filter (fun x => cutoff ≤ ratio x word) := by
      rw [hq]
      rcases hmem with rfl | hm'
      · exact List.mem_cons_self m t
      · exact List.mem_cons_of_mem y hm'
    rcases List.mem_filter.mp hcq with ⟨hmem', hrat⟩
    exact ⟨hmem', by simpa using hrat⟩

theorem guess_some_of_qualifying (columns : List String) (target : String)
    (h : ∃ c ∈ columns, 3 / 5 ≤ ratio (lowerStr c) (lowerStr target)) :
    ∃ h', guess_column_name columns target = some h' ∧ h' ∈ columns ∧
      3 / 5 ≤ ratio (lowerStr h') (lowerStr target) := by
  unfold guess_column_name
  cases hm : closeMatches1 (lowerStr target) (columns.map lowerStr) (3 / 5) with
  | none =>
    rcases h with ⟨c, hc, hrat⟩
    exact absurd hrat ((closeMatches1_none_iff _ _ _).mp hm (lowerStr c)
      (List.mem_map_of_mem _ hc))
  | some m =>
    rcases closeMatches1_some _ _ _ hm with ⟨hmm, hrat⟩
    rcases List.mem_map.mp hmm with ⟨col, hcol, hlow⟩
    cases hf : columns.find? (fun col => lowerStr col = m) with
    | none =>
      exfalso
      have := List.find?_eq_none.mp hf col hcol
      simp [hlow] at this
    | some h' =>
      have hp : lowerStr h' = m := by
        have := List.find?_some hf
        simpa using this
      exact ⟨h', hf, List.mem_of_find?_eq_some hf, by rw [hp]; exact hrat⟩

theorem guess_none_iff (columns : List String) (target : String) :
    guess_column_name columns target = none ↔
      ∀ c ∈ columns, ¬ 3 / 5 ≤ ratio (lowerStr c) (lowerStr target) := by
  constructor
  · intro h c hc hrat
    rcases guess_some_of_qualifying columns target ⟨c, hc, hrat⟩ with ⟨h', hh', _⟩
    rw [h] at hh'
    cases hh'
  · intro h
    unfold guess_column_name
    cases hm : closeMatches1 (lowerStr target) (columns.map lowerStr) (3 / 5) with
    | none => rfl
    | some m =>
      rcases closeMatches1_some _ _ _ hm with ⟨hmm, hrat⟩
      rcases List.mem_map.mp hmm with ⟨col, hcol, hlow⟩
      exact absurd (hlow ▸ hrat) (h col hcol)

/-- C2, amended: for every non-empty record list, `top_category` (line 76,
`groupby("Category")["Sales"].sum().idxmax()`) returns a category attaining the
maximum per-category sales sum; ties are broken by the smallest category in
Python string order (pandas sorts group keys; `idxmax` takes the first maximum
in key order), not by first occurrence in record order. -/
theorem claim2_amended (recs : List CRec) (hne : recs ≠ []) :
    ∃ c, topCategory recs = some c ∧ (∃ r ∈ recs, r.category = c) ∧
      (∀ r ∈ recs, sumByCat recs r.category ≤ sumByCat recs c) ∧
      (∀ r ∈ recs, sumByCat recs r.category = sumByCat recs c →
        pyLe c r.category = true) := by
  set pairs := (catsOf recs).map (fun c => (c, sumByCat recs c)) with hpairs
  have hpne : pairs ≠ [] := by
    rcases List.exists_mem_of_ne_nil recs hne with ⟨r, hr⟩
    have : r.category ∈ catsOf recs := mem_catsOf hr
    have : (r.category, sumByCat recs r.category) ∈ pairs :=
      List.mem_map_of_mem _ this
    exact List.ne_nil_of_mem this
  cases hidx : idxmax pairs with
  | none => exact absurd (idxmax_eq_none.mp hidx) hpne
  | some p =>
    rcases idxmax_mem_and_max hidx with ⟨hpmem, hpmax⟩
    rcases List.mem_map.mp hpmem with ⟨k, hkmem, hkp⟩
    have hp1 : p.1 = k := by rw [← hkp]
    have hp2 : p.2 = sumByCat recs k := by rw [← hkp]
    have hsorted : pairs.Pairwise (fun a b => pyLe a.1 b.1 = true) :=
      List.Pairwise.map (fun c => (c, sumByCat recs c)) (fun a b hab => hab)
        (sorted_catsOf recs)
    refine ⟨p.1, ?_, ?_, ?_, ?_⟩
    · simp [topCategory, ← hpairs, hidx]
    · rcases List.mem_dedup.mp
        ((perm_sortStrings (recs.map CRec.category).dedup).mem_iff.mp
          (hp1 ▸ hkmem)) with hmm
      rcases List.mem_map.mp hmm with ⟨r, hr, hrc⟩
      exact ⟨r, hr, hrc⟩
    · intro r hr
      have : (r.category, sumByCat recs r.category) ∈ pairs :=
        List.mem_map_of_mem _ (mem_catsOf hr)
      have := hpmax _ this
      simpa [hp1, hp2] using this
    · intro r hr htie
      have hmem : (r.category, sumByCat recs r.category) ∈ pairs :=
        List.mem_map_of_mem _ (mem_catsOf hr)
      have := idxmax_first_of_sorted hsorted hidx _ hmem (by simpa [hp1, hp2] using htie)
      simpa using this

/-- C5, amended: the analysis stops with the fixed message `unresolvedMsg`
exactly when the sales or the category column is undetected (lines 42-44).  The
message is one constant string naming both 'Sales' and 'Category' - it does not
say which field is missing and does not carry the detected header list - and an
undetected payment or date column never triggers this failure. -/
theorem claim5_amended (df : Table) :
    analyze df = Except.error unresolvedMsg ↔
      (guess_column_name df.headers "sales" = none ∨
        guess_column_name df.headers "category" = none) := by
  unfold analyze
  cases hg1 : guess_column_name df.headers "sales" with
  | none => simp
  | some sc =>
    cases hg2 : guess_column_name df.headers "category" with
    | none => simp
    | some cc =>
      by_cases hemp : (recordsOf (cleanPipe df sc cc
          (guess_column_name df.headers "payment")
          (guess_column_name df.headers "date"))).isEmpty <;>
        simp [hemp, emptyMsg, unresolvedMsg]

/-! ## The claims -/

/-- C1, counterexample: the header "Amt" is within similarity 2/3 ≥ 0.6 of the
alias "amount", yet resolving the Sales field over the headers
`["Amt", "Product", "Date", "Pay Mode"]` finds nothing: `guess_column_name`
(line 37) matches only the single target word "sales", and
ratio("amt", "sales") = 1/4 < 0.6. -/
theorem claim1_counterexample :
    3 / 5 ≤ ratio "amt" "amount" ∧
    guess_column_name ["Amt", "Product", "Date", "Pay Mode"] "sales" = none := by
  constructor <;> decide

/-- C1, amended: for every header list containing a header whose lowered form
is within similarity 0.6 of the single target word "sales" (case/spacing
variants of "sales" qualify, "Amt"/"amount" variants do not), resolving the
Sales field returns a header of the list whose similarity to "sales" is at
least 0.6. -/
theorem claim1_amended (columns : List String)
    (h : ∃ c ∈ columns, 3 / 5 ≤ ratio (lowerStr c) "sales") :
    ∃ hd, guess_column_name columns "sales" = some hd ∧ hd ∈ columns ∧
      3 / 5 ≤ ratio (lowerStr hd) "sales" := by
  have hl : lowerStr "sales" = "sales" := rfl
  have hres := guess_some_of_qualifying columns "sales" (by rw [hl]; exact h)
  rwa [hl] at hres

/-- C1, witness: the amended theorem at the concrete header list
`["Total Sales", "Product"]`, whose first header is a qualifying variant. -/
theorem claim1_witness :
    ∃ hd, guess_column_name ["Total Sales", "Product"] "sales" = some hd ∧
      hd ∈ ["Total Sales", "Product"] ∧ 3 / 5 ≤ ratio (lowerStr hd) "sales" :=
  claim1_amended ["Total Sales", "Product"] ⟨"Total Sales", by decide, by decide⟩

/-- C2, counterexample: with records B(10), A(10) - first-encountered category
"B", both category sums equal - the code returns "A" (the smallest key in the
sorted groupby index), not the first-encountered "B" the claim predicts. -/
theorem claim2_counterexample :
    (([⟨10, "B", none, none⟩, ⟨10, "A", none, none⟩] : List CRec).map CRec.category
      = ["B", "A"]) ∧
    sumByCat [⟨10, "B", none, none⟩, ⟨10, "A", none, none⟩] "A" =
      sumByCat [⟨10, "B", none, none⟩, ⟨10, "A", none, none⟩] "B" ∧
    topCategory [⟨10, "B", none, none⟩, ⟨10, "A", none, none⟩] = some "A" := by
  refine ⟨rfl, by decide, by decide⟩

/-- C2, witness: the amended theorem applied at a concrete non-empty record
list. -/
theorem claim2_witness :
    ∃ c, topCategory [⟨(3 : ℚ), "X", none, none⟩] = some c ∧
      (∃ r ∈ ([⟨(3 : ℚ), "X", none, none⟩] : List CRec), r.category = c) ∧
      (∀ r ∈ ([⟨(3 : ℚ), "X", none, none⟩] : List CRec),
        sumByCat [⟨(3 : ℚ), "X", none, none⟩] r.category ≤
          sumByCat [⟨(3 : ℚ), "X", none, none⟩] c) ∧
      (∀ r ∈ ([⟨(3 : ℚ), "X", none, none⟩] : List CRec),
        sumByCat [⟨(3 : ℚ), "X", none, none⟩] r.category =
          sumByCat [⟨(3 : ℚ), "X", none, none⟩] c → pyLe c r.category = true) :=
  claim2_amended [⟨(3 : ℚ), "X", none, none⟩] (by decide)

/-- C3: every record surviving the cleaning of an uploaded table carries a
non-empty category label: an empty category cell is NA after ingestion, and
`dropna(subset=[sales_col, category_col])` (line 55) removes the row. -/
theorem claim3_theorem (hs : List String) (rss : List (List String)) (sc cc : String)
    (pc dc : Option String) (h1 : sc ≠ cc) (h2 : sc ≠ "Payment") (h3 : sc ≠ "Date")
    (h4 : cc ≠ "Payment") (h5 : cc ≠ "Date") :
    ∀ rec ∈ recordsOf (cleanPipe (mkTable hs rss) sc cc pc dc), rec.category ≠ "" := by
  intro rec hmem
  rw [records_cleanPipe hs rss sc cc pc dc h1 h2 h3 h4 h5] at hmem
  rcases List.mem_filterMap.mp hmem with ⟨row, hrow, hclean⟩
  rcases ingest_cases hs row sc with hx | ⟨s, hs0, hx⟩ <;>
    rcases ingest_cases hs row cc with hy | ⟨c0, hc0, hy⟩ <;>
      simp only [rowClean, hx, hy] at hclean <;>
      try (cases hclean)
  cases hq : parseNumeric s with
  | none =>
    simp only [hq] at hclean
    exact Option.noConfusion hclean
  | some q =>
    simp only [hq] at hclean
    cases hclean
    simpa using hc0

/-- C3, witness: the theorem at a concrete one-row table whose cleaned record
has category "A". -/
theorem claim3_witness : (⟨(5 : ℚ), "A", none, none⟩ : CRec).category ≠ "" :=
  claim3_theorem ["S", "C"] [["5", "A"]] "S" "C" none none (by decide) (by decide)
    (by decide) (by decide) (by decide) ⟨5, "A", none, none⟩ (by decide)

/-- C4, counterexample: `pd.to_numeric` strips nothing - a sales cell
"₹1,000.50" (and already "1,000.50") fails coercion, so the claimed kept-row
with value 1000.50 is in fact dropped: the one-row upload ends in the
empty-after-cleaning error.  A plain "1000.50" does parse, to 2001/2. -/
theorem claim4_counterexample :
    parseNumeric "₹1,000.50" = none ∧ parseNumeric "1000.50" = some (2001 / 2) ∧
    analyze (mkTable ["Sales", "Category"] [["₹1,000.50", "Widgets"]]) =
      Except.error emptyMsg := by
  refine ⟨rfl, by decide, by rfl⟩

/-- C4, amended: during cleaning the sales cell is coerced accepting the
finite numeric representations `pd.to_numeric` parses - optionally signed
decimals and scientific notation; nothing but surrounding whitespace is
stripped, so currency symbols or thousands separators make the coercion fail -
and, for a row whose category cell is valid and whose sales cell is not an
infinity-string (those coerce to IEEE infinities, outside the rational model),
the row is kept with exactly the coerced value when coercion succeeds and
dropped when it fails (the cleaned records are the per-row results of
`rowClean`). -/
theorem claim4_amended (hs : List String) (rss : List (List String)) (sc cc : String)
    (pc dc : Option String) (row : List String) (s cat : String)
    (h1 : sc ≠ cc) (h2 : sc ≠ "Payment") (h3 : sc ≠ "Date")
    (h4 : cc ≠ "Payment") (h5 : cc ≠ "Date")
    (hsc : cellAt hs (row.map ingest) sc = CellV.str s)
    (hcc : cellAt hs (row.map ingest) cc = CellV.str cat)
    (hinf : isInfStr s = false) :
    (rowClean hs sc cc pc dc (row.map ingest)).map CRec.sales = parseNumeric s ∧
    recordsOf (cleanPipe (mkTable hs rss) sc cc pc dc) =
      rss.filterMap (fun r => rowClean hs sc cc pc dc (r.map ingest)) := by
  refine ⟨?_, records_cleanPipe hs rss sc cc pc dc h1 h2 h3 h4 h5⟩
  simp only [rowClean, hsc, hcc]
  cases hq : parseNumeric s <;> simp [hq]

/-- C4, witness: the amended theorem at a one-row table with the
scientific-notation sales cell "1.5e3". -/
theorem claim4_witness :
    (rowClean ["S", "C"] "S" "C" none none (["1.5e3", "A"].map ingest)).map CRec.sales
      = parseNumeric "1.5e3" ∧
    recordsOf (cleanPipe (mkTable ["S", "C"] [["1.5e3", "A"]]) "S" "C" none none) =
      [["1.5e3", "A"]].filterMap (fun r => rowClean ["S", "C"] "S" "C" none none
        (r.map ingest)) :=
  claim4_amended ["S", "C"] [["1.5e3", "A"]] "S" "C" none none ["1.5e3", "A"]
    "1.5e3" "A" (by decide) (by decide) (by decide) (by decide) (by decide)
    (by decide) (by decide) (by decide)

/-- C5, counterexample: the headers `["Sales"]` (category missing) and
`["Category"]` (sales missing) produce the same fixed error message - the
message neither names the missing field nor carries the detected headers. -/
theorem claim5_counterexample :
    analyze (mkTable ["Sales"] [["1"]]) = Except.error unresolvedMsg ∧
    analyze (mkTable ["Category"] [["A"]]) = Except.error unresolvedMsg := by
  constructor <;> rfl

/-- C6: whenever at least one record carries a parsed date, the weekday-count
aggregate has exactly the seven keys Monday through Sunday in that fixed
order (zero-filled by the `reindex` at lines 112-114), and its values sum to
the number of records with a parsed date - records without one are counted
under no weekday (`value_counts` drops the NaN day names of NaT dates). -/
theorem claim6_theorem (recs : List CRec) (h : ∃ r ∈ recs, r.date.isSome) :
    (weekdayCounts recs).map Prod.fst =
      ["Monday", "Tuesday", "Wednesday", "Thursday", "Friday", "Saturday", "Sunday"] ∧
    ((weekdayCounts recs).map Prod.snd).sum = recs.countP (fun r => r.date.isSome) := by
  refine ⟨?_, weekdayCounts_sum recs⟩
  simp [weekdayCounts, List.map_map, weekdayNames]

/-- C6, witness: the theorem at two records, one with a parsed date (epoch day
0) and one without. -/
theorem claim6_witness :
    (weekdayCounts [⟨(1 : ℚ), "A", none, some 0⟩, ⟨2, "B", none, none⟩]).map Prod.fst =
      ["Monday", "Tuesday", "Wednesday", "Thursday", "Friday", "Saturday", "Sunday"] ∧
    ((weekdayCounts [⟨(1 : ℚ), "A", none, some 0⟩, ⟨2, "B", none, none⟩]).map
      Prod.snd).sum =
      ([⟨(1 : ℚ), "A", none, some 0⟩, ⟨2, "B", none, none⟩] : List CRec).countP
        (fun r => r.date.isSome) :=
  claim6_theorem _ ⟨⟨(1 : ℚ), "A", none, some 0⟩, by decide, by decide⟩

/-- C7: for every record list, the per-category sales sums over the groupby
keys add up to the total sales (`df_clean["Sales"].sum()`, line 71) - exactly,
in the rational model. -/
theorem claim7_theorem (recs : List CRec) :
    ((catsOf recs).map (fun c => sumByCat recs c)).sum = totalSales recs := by
  unfold sumByCat totalSales
  exact sum_buckets (catsOf recs) (nodup_catsOf recs) recs CRec.category CRec.sales
    (fun r hr => mem_catsOf hr)

/-- C8: a row whose date cell fails parsing (`pd.to_datetime` with
`errors="coerce"`, line 53) is still retained when its category and sales
cells are valid - only its date is absent, and the weekday aggregate gives it
no bucket (a single such record yields all-zero weekday counts). -/
theorem claim8_theorem (hs : List String) (rss : List (List String)) (sc cc : String)
    (pc : Option String) (d : String) (row : List String) (s cat : String) (q : ℚ)
    (h1 : sc ≠ cc) (h2 : sc ≠ "Payment") (h3 : sc ≠ "Date")
    (h4 : cc ≠ "Payment") (h5 : cc ≠ "Date")
    (hrow : row ∈ rss)
    (hsc : cellAt hs (row.map ingest) sc = CellV.str s)
    (hcc : cellAt hs (row.map ingest) cc = CellV.str cat)
    (hq : parseNumeric s = some q)
    (hdate : toDatetimeCell (cellAt hs (row.map ingest) d) = CellV.na) :
    ∃ rec, rowClean hs sc cc pc (some d) (row.map ingest) = some rec ∧
      rec ∈ recordsOf (cleanPipe (mkTable hs rss) sc cc pc (some d)) ∧
      rec.sales = q ∧ rec.category = cat ∧ rec.date = none ∧
      weekdayCounts [rec] = weekdayNames.map (fun n => (n, 0)) := by
  have hrc : rowClean hs sc cc pc (some d) (row.map ingest) =
      some ⟨q, cat,
        (match pc.map (fun p => cellAt hs (row.map ingest) p) with
          | some (CellV.str v) => some v
          | _ => none), none⟩ := by
    simp only [rowClean, hsc, hcc, hq, Option.map_some', hdate]
  refine ⟨_, hrc, ?_, rfl, rfl, rfl, ?_⟩
  · rw [records_cleanPipe hs rss sc cc pc (some d) h1 h2 h3 h4 h5]
    exact List.mem_filterMap.mpr ⟨row, hrow, hrc⟩
  · simp [weekdayCounts, List.filterMap]

/-- C8, witness: the theorem at a one-row table whose date cell "soon" fails
parsing while "7.5" and "A" are valid sales/category cells. -/
theorem claim8_witness :
    ∃ rec, rowClean ["S", "C", "D"] "S" "C" none "D" (["7.5", "A", "soon"].map ingest)
        = some rec ∧
      rec ∈ recordsOf (cleanPipe (mkTable ["S", "C", "D"] [["7.5", "A", "soon"]])
        "S" "C" none (some "D")) ∧
      rec.sales = 15 / 2 ∧ rec.category = "A" ∧ rec.date = none ∧
      weekdayCounts [rec] = weekdayNames.map (fun n => (n, 0)) :=
  claim8_theorem ["S", "C", "D"] [["7.5", "A", "soon"]] "S" "C" none "D"
    ["7.5", "A", "soon"] "7.5" "A" (15 / 2) (by decide) (by decide) (by decide)
    (by decide) (by decide) (by decide) (by decide) (by decide) (by decide) (by decide)

/-- C9, counterexample: a record list with payments Cash and absent gives
`paymentCounts = [("Cash", 1)]` - `value_counts()` drops NA, so there is no
bucket for the absent value, contrary to the claim. -/
theorem claim9_counterexample :
    (∃ r ∈ ([⟨5, "A", some "Cash", none⟩, ⟨5, "B", none, none⟩] : List CRec),
      r.payment = none) ∧
    paymentCounts [⟨5, "A", some "Cash", none⟩, ⟨5, "B", none, none⟩] =
      [("Cash", 1)] := by
  constructor <;> decide

/-- C9, amended: the payment-method counts cover exactly the present values -
their values sum to the number of records with a present payment (so records
with an absent payment are counted nowhere), and every bucket key is the
payment value of some record. -/
theorem claim9_amended (recs : List CRec) :
    ((paymentCounts recs).map Prod.snd).sum = recs.countP (fun r => r.payment.isSome) ∧
    ∀ p ∈ paymentCounts recs, ∃ r ∈ recs, r.payment = some p.1 :=
  ⟨paymentCounts_sum recs, fun _ hp => paymentCounts_keys recs hp⟩

/-- C10: the full clean-and-aggregate pass never mutates the uploaded table:
in the state model where writes to `df_clean` would reach `df` only if the two
variables still aliased, the `.copy()` at line 48 breaks the aliasing and the
final value of `df` equals the input table - columns, values, and row order. -/
theorem claim10_theorem (df : Table) (sc cc : String) (pc dc : Option String) :
    (runFull df sc cc pc dc).df = df := by
  cases pc <;> cases dc <;> rfl

end SSA
